import Mathlib

set_option maxHeartbeats 1000000

/-!
Verification development for the Jupiter Perpetuals transaction-parsing
repository.  The API-route validation layer is embedded from the code in
src/INTEGRATION.md (the App Router handler `app/api/trades/[wallet]/route.ts`
and the Pages Router handler `pages/api/trades/[wallet].ts`).  The
retrieval-and-reconstruction pipeline (output.ts) is not present in the
repository snapshot, so it is modelled from the specification where needed.
-/

namespace JupPerps

/-! ## Shared model of the JavaScript runtime pieces used by the handlers -/

/-- Model of splitting a JS string on the literal separator, as in
the source expression dateString.split; empty parts are preserved,
exactly as in JavaScript. -/
def splitDotsAux : List Char → List Char → List String
  | [], acc => [String.mk acc.reverse]
  | c :: cs, acc =>
    if c = '.' then String.mk acc.reverse :: splitDotsAux cs []
    else splitDotsAux cs (c :: acc)

/-- Model of the JS expression dateString.split with separator dot. -/
def splitDots (s : String) : List String :=
  splitDotsAux s.data []

/-- Numeric value of an ASCII digit character. -/
def digitVal (c : Char) : Nat := c.toNat - 48

/-- Decimal value of a digit string. -/
def digitsToNat (cs : List Char) : Nat :=
  cs.foldl (fun n c => n * 10 + digitVal c) 0

/-- Model of the JS Number conversion on the strings reachable through the
handlers (digit strings after the format regex, plus the empty string).
JS Number of the empty string is 0; a non-numeric string is NaN,
modelled as none. -/
def jsNumberNat (s : String) : Option Nat :=
  match s.data with
  | [] => some 0
  | cs => if cs.all Char.isDigit then some (digitsToNat cs) else none

/-- Number conversion lifted to a possibly-missing destructured part
(a missing part is JS undefined, whose Number is NaN = none). -/
def jsNum : Option String → Option Nat
  | none => none
  | some s => jsNumberNat s

/-- JS comparison x < k where x may be NaN: any comparison with NaN is false. -/
def ltNaN (x : Option Nat) (k : Nat) : Bool :=
  match x with
  | none => false
  | some n => decide (n < k)

/-- JS comparison x > k where x may be NaN: any comparison with NaN is false. -/
def gtNaN (x : Option Nat) (k : Nat) : Bool :=
  match x with
  | none => false
  | some n => decide (k < n)

/-- A calendar date as produced by the JS Date constructor (normalized:
the stored day never exceeds the length of the stored month). -/
structure JDate where
  year : Nat
  month : Nat
  day : Nat
deriving DecidableEq, Repr

/-- Gregorian leap-year rule, as implemented by the JS Date runtime. -/
def isLeapYear (y : Nat) : Bool :=
  (decide (y % 4 = 0) && !(decide (y % 100 = 0))) || decide (y % 400 = 0)

/-- Number of days in a month of a given year, as in the JS Date runtime. -/
def daysInMonth (y m : Nat) : Nat :=
  if m = 2 then (if isLeapYear y then 29 else 28)
  else if m = 4 ∨ m = 6 ∨ m = 9 ∨ m = 11 then 30
  else 31

/-- Model of the JS constructor new Date applied to a 1-based month,
for the argument ranges reachable through the handlers (month 1..12 and
day 1..31 after component validation).  JS rolls an overflowing day into
the following month; with day at most 31 the overflow is at most 3 days,
so a single carry step is exact. -/
def jsDate (y m d : Nat) : JDate :=
  if d ≤ daysInMonth y m then ⟨y, m, d⟩
  else if m = 12 then ⟨y + 1, 1, d - daysInMonth y m⟩
  else ⟨y, m + 1, d - daysInMonth y m⟩

/-- Chronological comparison of normalized dates; models comparing the
getTime values of two JS Dates built from year/month/day. -/
def jdateLe (a b : JDate) : Bool :=
  if a.year ≠ b.year then decide (a.year < b.year)
  else if a.month ≠ b.month then decide (a.month < b.month)
  else decide (a.day ≤ b.day)

/-- Character class of the wallet regex in both route files:
1-9, A-H, J-N, P-Z, a-k, m-z (base58, no 0, O, I, l). -/
def isBase58Char (c : Char) : Bool :=
  (decide ('1' ≤ c) && decide (c ≤ '9')) ||
  (decide ('A' ≤ c) && decide (c ≤ 'H')) ||
  (decide ('J' ≤ c) && decide (c ≤ 'N')) ||
  (decide ('P' ≤ c) && decide (c ≤ 'Z')) ||
  (decide ('a' ≤ c) && decide (c ≤ 'k')) ||
  (decide ('m' ≤ c) && decide (c ≤ 'z'))

/-- Outcome of a route handler, truncated at the boundary where the handler
would perform I/O: analyze records that analyzeTradeHistoryJson is invoked
with exactly these arguments (in the source argument order
fromDate, wallet, toDate); badRequest is a 400 JSON error response;
methodNotAllowed is the 405 response of the Pages Router. -/
inductive RouteResponse where
  | badRequest (msg : String)
  | methodNotAllowed
  | analyze (fromDate : Option String) (wallet : String) (toDate : Option String)
deriving DecidableEq, Repr

/-- True exactly on the 400 responses. -/
def is400 : RouteResponse → Bool
  | .badRequest _ => true
  | _ => false

/-- True exactly when the handler reaches the analyzeTradeHistoryJson call. -/
def callsAnalyze : RouteResponse → Bool
  | .analyze _ _ _ => true
  | _ => false

end JupPerps

namespace JupPerps.AppRoute

/-- From src/INTEGRATION.md, app router: the regex test of
validateWalletAddress (a base58 string of 32 to 44 characters). -/
def validateWalletAddress (wallet : String) : Bool :=
  decide (32 ≤ wallet.data.length) && decide (wallet.data.length ≤ 44) &&
    wallet.data.all isBase58Char

/-- From src/INTEGRATION.md, app router: the regex test of
validateDateFormat (one or two digits, dot, one or two digits, dot,
four digits). -/
def validateDateFormat (date : String) : Bool :=
  match splitDots date with
  | [d, m, y] =>
    (decide (1 ≤ d.data.length) && decide (d.data.length ≤ 2) && d.data.all Char.isDigit) &&
    (decide (1 ≤ m.data.length) && decide (m.data.length ≤ 2) && m.data.all Char.isDigit) &&
    (decide (y.data.length = 4) && y.data.all Char.isDigit)
  | _ => false

/-- From src/INTEGRATION.md, app router: parseAndValidateDate.  Splits on
dots, converts parts with Number, range-checks day 1..31, month 1..12,
year 2020..2030 (comparisons with NaN are all false, as in JS), then
builds the JS Date; only a NaN component makes the Date invalid. -/
def parseAndValidateDate (dateString : String) : Except String JDate :=
  let parts := splitDots dateString
  let day := jsNum parts[0]?
  let month := jsNum parts[1]?
  let year := jsNum parts[2]?
  if ltNaN day 1 || gtNaN day 31 then .error "Invalid day"
  else if ltNaN month 1 || gtNaN month 12 then .error "Invalid month"
  else if ltNaN year 2020 || gtNaN year 2030 then .error "Invalid year"
  else
    match day, month, year with
    | some d, some m, some y => .ok (jsDate y m d)
    | _, _, _ => .error "Invalid date"

/-- From src/INTEGRATION.md, app router GET: the shared shape of the two
identical blocks validating an optional date query parameter (the JS
truthiness test, then validateDateFormat, then parseAndValidateDate inside
try/catch); returns the validated parameter or the 400 response. -/
def checkDateParam (label : String) (p : Option String) : Except RouteResponse (Option String) :=
  match p with
  | none => .ok none
  | some s =>
    if s = "" then .ok none
    else if !(validateDateFormat s) then
      .error (.badRequest ("Invalid " ++ label ++ " format. Use DD.MM.YYYY"))
    else
      match parseAndValidateDate s with
      | .error e => .error (.badRequest ("Invalid " ++ label ++ ": " ++ e))
      | .ok _ => .ok (some s)

/-- From src/INTEGRATION.md, app router: the GET handler of
app/api/trades/[wallet]/route.ts, up to the analyzeTradeHistoryJson call.
Wallet truthiness and format checks, per-parameter date validation, then
the from >= to range rejection. -/
def GET (wallet : String) (from_date to_date : Option String) : RouteResponse :=
  if wallet = "" then .badRequest "Wallet address is required"
  else if !(validateWalletAddress wallet) then .badRequest "Invalid wallet address format"
  else
    match checkDateParam "from_date" from_date with
    | .error r => r
    | .ok fromDate =>
      match checkDateParam "to_date" to_date with
      | .error r => r
      | .ok toDate =>
        match fromDate, toDate with
        | some fd, some td =>
          match parseAndValidateDate fd, parseAndValidateDate td with
          | .ok f, .ok t =>
            if jdateLe t f then .badRequest "from_date must be earlier than to_date"
            else .analyze (some fd) wallet (some td)
          | .error e, _ => .badRequest e
          | _, .error e => .badRequest e
        | _, _ => .analyze fromDate wallet toDate

end JupPerps.AppRoute

namespace JupPerps

example : splitDots "31.02.2025" = ["31", "02", "2025"] := by decide
example : AppRoute.validateWalletAddress "GFexHU2EkUcmcKbj3GyiuNQoa7TreCxLkAxMb2xeLHgS" = true := by decide
example : AppRoute.validateWalletAddress "abc" = false := by decide
example : AppRoute.validateDateFormat "31.02.2025" = true := by decide
example : AppRoute.parseAndValidateDate "31.02.2025" = .ok ⟨2025, 3, 3⟩ := rfl
example : AppRoute.parseAndValidateDate "01.06.2025" = .ok ⟨2025, 6, 1⟩ := rfl
example : AppRoute.parseAndValidateDate "32.06.2025" = .error "Invalid day" := rfl
example : AppRoute.GET "GFexHU2EkUcmcKbj3GyiuNQoa7TreCxLkAxMb2xeLHgS" (some "31.02.2025") none
    = .analyze (some "31.02.2025") "GFexHU2EkUcmcKbj3GyiuNQoa7TreCxLkAxMb2xeLHgS" none := rfl

/-- C1: a wallet path parameter that does not match the base58 32-44
character pattern makes the GET handler return a 400 error response, and
analyzeTradeHistoryJson is never invoked (rejection happens before any
network call). -/
theorem c1_invalid_wallet_rejected (wallet : String) (from_date to_date : Option String)
    (h : AppRoute.validateWalletAddress wallet = false) :
    is400 (AppRoute.GET wallet from_date to_date) = true ∧
    callsAnalyze (AppRoute.GET wallet from_date to_date) = false := by
  by_cases hw : wallet = ""
  · simp [AppRoute.GET, hw, is400, callsAnalyze]
  · simp [AppRoute.GET, hw, h, is400, callsAnalyze]

/-- Witness for C1 at the concrete invalid wallet string abc. -/
theorem c1_witness :
    AppRoute.validateWalletAddress "abc" = false ∧
    is400 (AppRoute.GET "abc" none none) = true ∧
    callsAnalyze (AppRoute.GET "abc" none none) = false :=
  ⟨by decide, (c1_invalid_wallet_rejected "abc" none none (by decide)).1,
    (c1_invalid_wallet_rejected "abc" none none (by decide)).2⟩

/-- Every error produced by the date-parameter validation block is a 400
bad-request response. -/
lemma checkDateParam_error_bad {lab : String} {p : Option String} {r : RouteResponse}
    (h : AppRoute.checkDateParam lab p = .error r) : ∃ m, r = .badRequest m := by
  cases p with
  | none => simp [AppRoute.checkDateParam] at h
  | some t =>
    by_cases ht : t = ""
    · simp [AppRoute.checkDateParam, ht] at h
    · by_cases hf : AppRoute.validateDateFormat t
      · cases hp : AppRoute.parseAndValidateDate t with
        | error e =>
          simp [AppRoute.checkDateParam, ht, hf, hp] at h
          exact ⟨_, h.symm⟩
        | ok d => simp [AppRoute.checkDateParam, ht, hf, hp] at h
      · simp only [AppRoute.checkDateParam, if_neg ht, hf] at h
        simp at h
        exact ⟨_, h.symm⟩

/-- A truthy date parameter that survives the validation block has passed
both the format regex and parseAndValidateDate, and is passed on unchanged. -/
lemma checkDateParam_ok_of_some {lab s : String} {x : Option String} (hs : s ≠ "")
    (h : AppRoute.checkDateParam lab (some s) = .ok x) :
    AppRoute.validateDateFormat s = true ∧ (∃ d, AppRoute.parseAndValidateDate s = .ok d) ∧
      x = some s := by
  by_cases hf : AppRoute.validateDateFormat s
  · cases hp : AppRoute.parseAndValidateDate s with
    | error e => simp [AppRoute.checkDateParam, hs, hf, hp] at h
    | ok d =>
      simp [AppRoute.checkDateParam, hs, hf, hp] at h
      exact ⟨hf, ⟨d, rfl⟩, h.symm⟩
  · simp [AppRoute.checkDateParam, hs, hf] at h

/-- A truthy date parameter that fails the format regex or the parse step
makes the validation block return a 400 response. -/
lemma checkDateParam_bad (lab : String) {s : String} (hs : s ≠ "")
    (h : AppRoute.validateDateFormat s = false ∨
      ∃ e, AppRoute.parseAndValidateDate s = .error e) :
    ∃ m, AppRoute.checkDateParam lab (some s) = .error (.badRequest m) := by
  rcases h with hf | ⟨e, hp⟩
  · refine ⟨"Invalid " ++ lab ++ " format. Use DD.MM.YYYY", ?_⟩
    simp [AppRoute.checkDateParam, hs, hf]
  · by_cases hf : AppRoute.validateDateFormat s
    · refine ⟨"Invalid " ++ lab ++ ": " ++ e, ?_⟩
      simp [AppRoute.checkDateParam, hs, hf, hp]
    · refine ⟨"Invalid " ++ lab ++ " format. Use DD.MM.YYYY", ?_⟩
      simp [AppRoute.checkDateParam, hs, hf]

/-- A wallet accepted by the regex is nonempty (it has at least 32 characters). -/
lemma validateWalletAddress_ne_empty {w : String}
    (h : AppRoute.validateWalletAddress w = true) : w ≠ "" := by
  intro he
  subst he
  simp [AppRoute.validateWalletAddress] at h

/-- C2 counterexample: the from_date 31.02.2025 names a day that does not
exist in February, yet the handler does not reject the request: with a
valid wallet it invokes analyzeTradeHistoryJson, contradicting the claim
that such a request receives a 400 before any network call. -/
theorem c2_counterexample :
    AppRoute.validateWalletAddress "GFexHU2EkUcmcKbj3GyiuNQoa7TreCxLkAxMb2xeLHgS" = true ∧
    daysInMonth 2025 2 < 31 ∧
    AppRoute.GET "GFexHU2EkUcmcKbj3GyiuNQoa7TreCxLkAxMb2xeLHgS" (some "31.02.2025") none
      = .analyze (some "31.02.2025") "GFexHU2EkUcmcKbj3GyiuNQoa7TreCxLkAxMb2xeLHgS" none :=
  ⟨by decide, by decide, rfl⟩

/-- C2 (amended): a supplied from_date or to_date that fails the format
regex or whose components are out of range (parseAndValidateDate throws) is
rejected with a 400 error before any network call, and
analyzeTradeHistoryJson is invoked only when every supplied date passes the
format regex and parseAndValidateDate; a day that does not exist in the
named month (such as 31.02.2025) passes those checks via JS Date rollover
and is therefore not rejected. -/
theorem c2_amended :
    (∀ (wallet : String) (from_date to_date : Option String) (s : String),
      from_date = some s → s ≠ "" →
      (AppRoute.validateDateFormat s = false ∨
        ∃ e, AppRoute.parseAndValidateDate s = .error e) →
      is400 (AppRoute.GET wallet from_date to_date) = true ∧
      callsAnalyze (AppRoute.GET wallet from_date to_date) = false) ∧
    (∀ (wallet : String) (from_date to_date : Option String) (s : String),
      to_date = some s → s ≠ "" →
      (AppRoute.validateDateFormat s = false ∨
        ∃ e, AppRoute.parseAndValidateDate s = .error e) →
      is400 (AppRoute.GET wallet from_date to_date) = true ∧
      callsAnalyze (AppRoute.GET wallet from_date to_date) = false) ∧
    (∀ (wallet : String) (from_date to_date : Option String)
      (a : Option String) (b : String) (c : Option String),
      AppRoute.GET wallet from_date to_date = .analyze a b c →
      (∀ s, from_date = some s → s ≠ "" →
        AppRoute.validateDateFormat s = true ∧
          ∃ d, AppRoute.parseAndValidateDate s = .ok d) ∧
      (∀ s, to_date = some s → s ≠ "" →
        AppRoute.validateDateFormat s = true ∧
          ∃ d, AppRoute.parseAndValidateDate s = .ok d)) := by
  refine ⟨?_, ?_, ?_⟩
  · intro wallet from_date to_date s hfs hs hbad
    subst hfs
    by_cases hw : wallet = ""
    · simp [AppRoute.GET, hw, is400, callsAnalyze]
    · by_cases hv : AppRoute.validateWalletAddress wallet
      · obtain ⟨m, hcf⟩ := checkDateParam_bad "from_date" hs hbad
        simp [AppRoute.GET, hw, hv, hcf, is400, callsAnalyze]
      · simp [AppRoute.GET, hw, hv, is400, callsAnalyze]
  · intro wallet from_date to_date s hts hs hbad
    subst hts
    by_cases hw : wallet = ""
    · simp [AppRoute.GET, hw, is400, callsAnalyze]
    · by_cases hv : AppRoute.validateWalletAddress wallet
      · cases hcf : AppRoute.checkDateParam "from_date" from_date with
        | error r =>
          obtain ⟨m, rfl⟩ := checkDateParam_error_bad hcf
          simp [AppRoute.GET, hw, hv, hcf, is400, callsAnalyze]
        | ok fromDate =>
          obtain ⟨m, hct⟩ := checkDateParam_bad "to_date" hs hbad
          simp [AppRoute.GET, hw, hv, hcf, hct, is400, callsAnalyze]
      · simp [AppRoute.GET, hw, hv, is400, callsAnalyze]
  · intro wallet from_date to_date a b c h
    by_cases hw : wallet = ""
    · simp [AppRoute.GET, hw] at h
    · by_cases hv : AppRoute.validateWalletAddress wallet
      · cases hcf : AppRoute.checkDateParam "from_date" from_date with
        | error r =>
          obtain ⟨m, rfl⟩ := checkDateParam_error_bad hcf
          simp [AppRoute.GET, hw, hv, hcf] at h
        | ok fromDate =>
          cases hct : AppRoute.checkDateParam "to_date" to_date with
          | error r =>
            obtain ⟨m, rfl⟩ := checkDateParam_error_bad hct
            simp [AppRoute.GET, hw, hv, hcf, hct] at h
          | ok toDate =>
            constructor
            · intro s hfs hsne
              subst hfs
              obtain ⟨h1, h2, _⟩ := checkDateParam_ok_of_some hsne hcf
              exact ⟨h1, h2⟩
            · intro s hts hsne
              subst hts
              obtain ⟨h1, h2, _⟩ := checkDateParam_ok_of_some hsne hct
              exact ⟨h1, h2⟩
      · simp [AppRoute.GET, hw, hv] at h

/-- Witness for C2 (amended): the out-of-range from_date 32.06.2025 is
rejected with a 400, and a request that does reach analyzeTradeHistoryJson
has dates passing format and parse validation. -/
theorem c2_witness :
    is400 (AppRoute.GET "GFexHU2EkUcmcKbj3GyiuNQoa7TreCxLkAxMb2xeLHgS"
      (some "32.06.2025") none) = true ∧
    callsAnalyze (AppRoute.GET "GFexHU2EkUcmcKbj3GyiuNQoa7TreCxLkAxMb2xeLHgS"
      (some "32.06.2025") none) = false :=
  c2_amended.1 "GFexHU2EkUcmcKbj3GyiuNQoa7TreCxLkAxMb2xeLHgS" (some "32.06.2025") none
    "32.06.2025" rfl (by decide) (Or.inr ⟨"Invalid day", rfl⟩)

/-- Chronological comparison is reflexive: a date is not strictly earlier
than itself. -/
lemma jdateLe_refl (d : JDate) : jdateLe d d = true := by
  simp [jdateLe]

/-- C8: with both dates supplied and valid, a parsed from-date at or after
the parsed to-date is rejected with the range error, and a request whose
from_date string equals its to_date string can never reach
analyzeTradeHistoryJson. -/
theorem c8_range_rejection :
    (∀ (wallet fd td : String) (f t : JDate),
      AppRoute.validateWalletAddress wallet = true →
      fd ≠ "" → td ≠ "" →
      AppRoute.validateDateFormat fd = true → AppRoute.validateDateFormat td = true →
      AppRoute.parseAndValidateDate fd = .ok f → AppRoute.parseAndValidateDate td = .ok t →
      jdateLe t f = true →
      AppRoute.GET wallet (some fd) (some td)
        = .badRequest "from_date must be earlier than to_date") ∧
    (∀ (wallet s : String) (a : Option String) (b : String) (c : Option String),
      s ≠ "" → AppRoute.GET wallet (some s) (some s) ≠ .analyze a b c) := by
  constructor
  · intro wallet fd td f t hv hfd htd hffmt htfmt hfp htp hle
    have hw : wallet ≠ "" := validateWalletAddress_ne_empty hv
    have hcf : AppRoute.checkDateParam "from_date" (some fd) = .ok (some fd) := by
      simp [AppRoute.checkDateParam, hfd, hffmt, hfp]
    have hct : AppRoute.checkDateParam "to_date" (some td) = .ok (some td) := by
      simp [AppRoute.checkDateParam, htd, htfmt, htp]
    simp [AppRoute.GET, hw, hv, hcf, hct, hfp, htp, hle]
  · intro wallet s a b c hs h
    by_cases hw : wallet = ""
    · simp [AppRoute.GET, hw] at h
    · by_cases hv : AppRoute.validateWalletAddress wallet
      · cases hc : AppRoute.checkDateParam "from_date" (some s) with
        | error r =>
          obtain ⟨m, rfl⟩ := checkDateParam_error_bad hc
          simp [AppRoute.GET, hw, hv, hc] at h
        | ok x =>
          obtain ⟨hfmt, ⟨d, hp⟩, rfl⟩ := checkDateParam_ok_of_some hs hc
          have hc2 : AppRoute.checkDateParam "to_date" (some s) = .ok (some s) := by
            simp [AppRoute.checkDateParam, hs, hfmt, hp]
          have hc1 : AppRoute.checkDateParam "from_date" (some s) = .ok (some s) := by
            simp [AppRoute.checkDateParam, hs, hfmt, hp]
          simp [AppRoute.GET, hw, hv, hc1, hc2, hp, jdateLe_refl] at h
      · simp [AppRoute.GET, hw, hv] at h

/-- Witness for C8: 02.06.2025 to 01.06.2025 is rejected with the range
error, and a same-day range 05.06.2025 to 05.06.2025 cannot reach
analyzeTradeHistoryJson. -/
theorem c8_witness :
    AppRoute.GET "GFexHU2EkUcmcKbj3GyiuNQoa7TreCxLkAxMb2xeLHgS"
      (some "02.06.2025") (some "01.06.2025")
      = .badRequest "from_date must be earlier than to_date" ∧
    AppRoute.GET "GFexHU2EkUcmcKbj3GyiuNQoa7TreCxLkAxMb2xeLHgS"
      (some "05.06.2025") (some "05.06.2025")
      ≠ .analyze (some "05.06.2025") "GFexHU2EkUcmcKbj3GyiuNQoa7TreCxLkAxMb2xeLHgS"
          (some "05.06.2025") :=
  ⟨c8_range_rejection.1 "GFexHU2EkUcmcKbj3GyiuNQoa7TreCxLkAxMb2xeLHgS"
      "02.06.2025" "01.06.2025" ⟨2025, 6, 2⟩ ⟨2025, 6, 1⟩
      (by decide) (by decide) (by decide) (by decide) (by decide) rfl rfl (by decide),
    c8_range_rejection.2 "GFexHU2EkUcmcKbj3GyiuNQoa7TreCxLkAxMb2xeLHgS" "05.06.2025"
      (some "05.06.2025") "GFexHU2EkUcmcKbj3GyiuNQoa7TreCxLkAxMb2xeLHgS"
      (some "05.06.2025") (by decide)⟩

/-- December has 31 days. -/
lemma daysInMonth_twelve (y : Nat) : daysInMonth y 12 = 31 := by
  simp [daysInMonth]

/-- C9: parseAndValidateDate is total on its accepted domain: every string
whose three dot-separated parts are numbers with day 1..31, month 1..12 and
year 2020..2030 is accepted and returns a Date, and when the day exceeds
the length of the named month the returned Date lies in the following
month (JS Date rollover) instead of the call being rejected. -/
theorem c9_parse_accepts_rollover (s ds ms ys : String) (d m y : Nat)
    (hsplit : splitDots s = [ds, ms, ys])
    (hd : jsNumberNat ds = some d) (hm : jsNumberNat ms = some m)
    (hy : jsNumberNat ys = some y)
    (hd1 : 1 ≤ d) (hd31 : d ≤ 31) (hm1 : 1 ≤ m) (hm12 : m ≤ 12)
    (hy1 : 2020 ≤ y) (hy2 : y ≤ 2030) :
    AppRoute.parseAndValidateDate s = .ok (jsDate y m d) ∧
    (daysInMonth y m < d →
      jsDate y m d = ⟨y, m + 1, d - daysInMonth y m⟩ ∧ m + 1 ≤ 12) := by
  constructor
  · have c1 : ltNaN (some d) 1 = false := by simp [ltNaN]; omega
    have c2 : gtNaN (some d) 31 = false := by simp [gtNaN]; omega
    have c3 : ltNaN (some m) 1 = false := by simp [ltNaN]; omega
    have c4 : gtNaN (some m) 12 = false := by simp [gtNaN]; omega
    have c5 : ltNaN (some y) 2020 = false := by simp [ltNaN]; omega
    have c6 : gtNaN (some y) 2030 = false := by simp [gtNaN]; omega
    simp [AppRoute.parseAndValidateDate, hsplit, jsNum, hd, hm, hy, c1, c2, c3, c4, c5, c6]
  · intro hroll
    have hm12' : m ≠ 12 := by
      intro he
      subst he
      rw [daysInMonth_twelve] at hroll
      omega
    refine ⟨?_, by omega⟩
    simp [jsDate, hm12']
    omega

/-- Witness for C9 at the concrete input 31.02.2025: the call is accepted
and the returned Date is 03.03.2025, a day in the following month. -/
theorem c9_witness :
    AppRoute.parseAndValidateDate "31.02.2025" = .ok (jsDate 2025 2 31) ∧
    (daysInMonth 2025 2 < 31 →
      jsDate 2025 2 31 = ⟨2025, 2 + 1, 31 - daysInMonth 2025 2⟩ ∧ 2 + 1 ≤ 12) :=
  c9_parse_accepts_rollover "31.02.2025" "31" "02" "2025" 31 2 2025
    (by decide) rfl rfl rfl (by decide) (by decide) (by decide) (by decide)
    (by decide) (by decide)

end JupPerps

namespace JupPerps.PagesRoute

/-- From src/INTEGRATION.md, pages router: the regex test of
validateWalletAddress (textually identical to the app router copy). -/
def validateWalletAddress (wallet : String) : Bool :=
  decide (32 ≤ wallet.data.length) && decide (wallet.data.length ≤ 44) &&
    wallet.data.all isBase58Char

/-- From src/INTEGRATION.md, pages router: the regex test of
validateDateFormat (textually identical to the app router copy). -/
def validateDateFormat (date : String) : Bool :=
  match splitDots date with
  | [d, m, y] =>
    (decide (1 ≤ d.data.length) && decide (d.data.length ≤ 2) && d.data.all Char.isDigit) &&
    (decide (1 ≤ m.data.length) && decide (m.data.length ≤ 2) && m.data.all Char.isDigit) &&
    (decide (y.data.length = 4) && y.data.all Char.isDigit)
  | _ => false

/-- From src/INTEGRATION.md, pages router: parseAndValidateDate
(textually identical to the app router copy). -/
def parseAndValidateDate (dateString : String) : Except String JDate :=
  let parts := splitDots dateString
  let day := jsNum parts[0]?
  let month := jsNum parts[1]?
  let year := jsNum parts[2]?
  if ltNaN day 1 || gtNaN day 31 then .error "Invalid day"
  else if ltNaN month 1 || gtNaN month 12 then .error "Invalid month"
  else if ltNaN year 2020 || gtNaN year 2030 then .error "Invalid year"
  else
    match day, month, year with
    | some d, some m, some y => .ok (jsDate y m d)
    | _, _, _ => .error "Invalid date"

/-- From src/INTEGRATION.md, pages router handler: the per-parameter date
validation block (truthiness, then the type and format test, then
parseAndValidateDate inside try/catch).  A query value that is present and
truthy is a plain string in this embedding, so the typeof test of the
source is always passed. -/
def checkDateParam (label : String) (p : Option String) : Except RouteResponse (Option String) :=
  match p with
  | none => .ok none
  | some s =>
    if s = "" then .ok none
    else if !(validateDateFormat s) then
      .error (.badRequest ("Invalid " ++ label ++ " format. Use DD.MM.YYYY"))
    else
      match parseAndValidateDate s with
      | .error e => .error (.badRequest ("Invalid " ++ label ++ ": " ++ e))
      | .ok _ => .ok (some s)

/-- From src/INTEGRATION.md, pages router: the default handler of
pages/api/trades/[wallet].ts up to the analyzeTradeHistoryJson call.
Rejects non-GET methods with 405, then performs the same validation
sequence as the app router GET handler.  A missing wallet query parameter
is none; a present one is a plain string in this embedding. -/
def handler (method : String) (wallet : Option String) (from_date to_date : Option String) :
    RouteResponse :=
  if method ≠ "GET" then .methodNotAllowed
  else
    match wallet with
    | none => .badRequest "Wallet address is required"
    | some w =>
      if w = "" then .badRequest "Wallet address is required"
      else if !(validateWalletAddress w) then .badRequest "Invalid wallet address format"
      else
        match checkDateParam "from_date" from_date with
        | .error r => r
        | .ok fromDate =>
          match checkDateParam "to_date" to_date with
          | .error r => r
          | .ok toDate =>
            match fromDate, toDate with
            | some fd, some td =>
              match parseAndValidateDate fd, parseAndValidateDate td with
              | .ok f, .ok t =>
                if jdateLe t f then .badRequest "from_date must be earlier than to_date"
                else .analyze (some fd) w (some td)
              | .error e, _ => .badRequest e
              | _, .error e => .badRequest e
            | _, _ => .analyze fromDate w toDate

end JupPerps.PagesRoute

namespace JupPerps

/-- C10: the App Router GET handler and the Pages Router handler implement
equivalent input validation: on every (wallet, from_date, to_date) input a
GET request to the Pages Router produces exactly the response of the App
Router handler (same wallet regex, same date-format regex, same
parseAndValidateDate bounds, same strict from-before-to requirement), and
the Pages Router additionally rejects every non-GET method with 405, which
has no App Router counterpart. -/
theorem c10_routers_equivalent :
    (∀ (wallet : String) (from_date to_date : Option String),
      PagesRoute.handler "GET" (some wallet) from_date to_date
        = AppRoute.GET wallet from_date to_date) ∧
    (∀ (method : String) (wallet from_date to_date : Option String),
      method ≠ "GET" →
      PagesRoute.handler method wallet from_date to_date = .methodNotAllowed) := by
  constructor
  · intro wallet from_date to_date
    rfl
  · intro method wallet from_date to_date hm
    simp [PagesRoute.handler, hm]

/-- Witness for C10: on a concrete GET request both handlers coincide, and
a POST request is rejected with 405 by the Pages Router. -/
theorem c10_witness :
    PagesRoute.handler "GET" (some "GFexHU2EkUcmcKbj3GyiuNQoa7TreCxLkAxMb2xeLHgS")
      (some "01.06.2025") (some "27.06.2025")
      = AppRoute.GET "GFexHU2EkUcmcKbj3GyiuNQoa7TreCxLkAxMb2xeLHgS"
          (some "01.06.2025") (some "27.06.2025") ∧
    PagesRoute.handler "POST" (some "GFexHU2EkUcmcKbj3GyiuNQoa7TreCxLkAxMb2xeLHgS")
      none none = .methodNotAllowed :=
  ⟨c10_routers_equivalent.1 "GFexHU2EkUcmcKbj3GyiuNQoa7TreCxLkAxMb2xeLHgS"
      (some "01.06.2025") (some "27.06.2025"),
    c10_routers_equivalent.2 "POST" (some "GFexHU2EkUcmcKbj3GyiuNQoa7TreCxLkAxMb2xeLHgS")
      none none (by decide)⟩

end JupPerps

namespace JupPerps

/-! ## Pipeline model

The retrieval-and-reconstruction pipeline lives in output.ts, which is not
part of the repository snapshot (only its integration guide and performance
notes are).  The definitions below are therefore modelled from the
specification (spec sections 2, 3, 4 and 7). -/

/-- Modelled from the spec: the side of a position (section 3, RawEvent). -/
inductive Side where
  | long
  | short
deriving DecidableEq, Repr, Inhabited

/-- Modelled from the spec: the request-type hint attached to an event
(section 3 and section 4.4). -/
inductive ReqType where
  | market
  | limit
  | stopLoss
  | takeProfit
  | liquidation
deriving DecidableEq, Repr, Inhabited

/-- Modelled from the spec: the tagged variants of a decoded program event
(section 3, RawEvent). -/
inductive EventKind where
  | openPosition
  | increase
  | decrease
  | instantIncrease
  | instantDecrease
  | liquidate
  | requestCreated
  | requestCancelled
deriving DecidableEq, Repr, Inhabited

/-- Modelled from the spec: a decoded program event (section 3, RawEvent).
Fixed-point quantities are integers in exchange-native decimals; addresses
and signatures are opaque identifiers, modelled as naturals. -/
structure RawEvent where
  positionKey : Nat
  timestamp : Nat
  signature : Nat
  side : Side
  kind : EventKind
  sizeDelta : Int
  price : Int
  fee : Int
  collateralDelta : Int
  reqType : ReqType
deriving DecidableEq, Repr, Inhabited

/-- Modelled from the spec: lifecycle status (section 3, PositionLifecycle). -/
inductive LStatus where
  | active
  | closed
  | liquidated
deriving DecidableEq, Repr, Inhabited

/-- Modelled from the spec: a reconstructed position lifecycle (section 3).
The inconsistent flag records the InconsistentLifecycle warning of section 7
(a terminal event leaving nonzero exposure). -/
structure PositionLifecycle where
  positionKey : Nat
  side : Side
  status : LStatus
  events : List RawEvent
  entrySize : Int
  size : Int
  collateral : Int
  entryPrice : Int
  totalFees : Int
  realizedPnl : Int
  entryTime : Nat
  exitTime : Option Nat
  exitPrice : Option Int
  inconsistent : Bool
deriving DecidableEq, Repr, Inhabited

/-- Event kinds that add exposure (section 4.5 state machine). -/
def isIncreaseKind : EventKind → Bool
  | .openPosition | .increase | .instantIncrease => true
  | _ => false

/-- Event kinds that remove exposure (section 4.5 state machine). -/
def isDecreaseKind : EventKind → Bool
  | .decrease | .instantDecrease => true
  | _ => false

/-- Modelled from the spec: the signed size delta of an event — positive
for opens and increases, negative for decreases and liquidations, zero for
request bookkeeping events (section 3 invariant). -/
def signedDelta (e : RawEvent) : Int :=
  if isIncreaseKind e.kind then e.sizeDelta
  else if isDecreaseKind e.kind || e.kind == .liquidate then -e.sizeDelta
  else 0

/-- Sum of the signed size deltas of a sequence of events. -/
def sumDeltas (evs : List RawEvent) : Int :=
  (evs.map signedDelta).sum

/-- Running state of one in-flight lifecycle inside the reconstructor. -/
structure Acc where
  positionKey : Nat
  side : Side
  events : List RawEvent
  entrySize : Int
  size : Int
  collateral : Int
  entryPrice : Int
  fees : Int
  pnl : Int
  entryTime : Nat
deriving DecidableEq, Repr, Inhabited

/-- Modelled from the spec: the first Open or InstantIncrease event
establishes entry price, time, side, collateral and size (section 4.5). -/
def startAcc (e : RawEvent) : Acc :=
  { positionKey := e.positionKey, side := e.side, events := [e],
    entrySize := e.sizeDelta, size := e.sizeDelta,
    collateral := e.collateralDelta, entryPrice := e.price,
    fees := e.fee, pnl := 0, entryTime := e.timestamp }

/-- Modelled from the spec: weighted-average entry price update on an
increase (section 4.5). -/
def avgEntry (a : Acc) (e : RawEvent) : Int :=
  if a.size + e.sizeDelta = 0 then a.entryPrice
  else (a.entryPrice * a.size + e.price * e.sizeDelta) / (a.size + e.sizeDelta)

/-- Modelled from the spec: folding an increase-kind event into an active
lifecycle (section 4.5). -/
def applyIncrease (a : Acc) (e : RawEvent) : Acc :=
  { a with
    events := a.events ++ [e], size := a.size + e.sizeDelta,
    entryPrice := avgEntry a e, collateral := a.collateral + e.collateralDelta,
    fees := a.fees + e.fee }

/-- Modelled from the spec: realized PnL contribution of a decrease, using
the price delta against the running average entry price with the sign of
the position direction (section 4.5). -/
def pnlContribution (a : Acc) (e : RawEvent) : Int :=
  (if a.side = .long then e.price - a.entryPrice else a.entryPrice - e.price) * e.sizeDelta

/-- Modelled from the spec: folding a decrease-kind or liquidate event into
an active lifecycle (section 4.5). -/
def applyDecrease (a : Acc) (e : RawEvent) : Acc :=
  { a with
    events := a.events ++ [e], size := a.size - e.sizeDelta,
    collateral := a.collateral + e.collateralDelta,
    fees := a.fees + e.fee, pnl := a.pnl + pnlContribution a e }

/-- Modelled from the spec: sealing a lifecycle at a terminal event; a
terminal state with nonzero remaining size raises the InconsistentLifecycle
flag instead of being dropped (sections 3 and 7). -/
def finishLifecycle (a : Acc) (st : LStatus) (e : RawEvent) : PositionLifecycle :=
  { positionKey := a.positionKey, side := a.side, status := st,
    events := a.events, entrySize := a.entrySize, size := a.size,
    collateral := a.collateral, entryPrice := a.entryPrice,
    totalFees := a.fees, realizedPnl := a.pnl - a.fees,
    entryTime := a.entryTime, exitTime := some e.timestamp,
    exitPrice := some e.price, inconsistent := decide (a.size ≠ 0) }

/-- Modelled from the spec: a lifecycle with no terminating event is
reported with status active and no exit metrics (section 4.5). -/
def activeLifecycle (a : Acc) : PositionLifecycle :=
  { positionKey := a.positionKey, side := a.side, status := .active,
    events := a.events, entrySize := a.entrySize, size := a.size,
    collateral := a.collateral, entryPrice := a.entryPrice,
    totalFees := a.fees, realizedPnl := a.pnl - a.fees,
    entryTime := a.entryTime, exitTime := none, exitPrice := none,
    inconsistent := false }

/-- Modelled from the spec: one transition of the per-group state machine
(section 4.5).  Uninitialized becomes Active on Open/InstantIncrease (other
events with no open lifecycle are skipped); Active folds increases and
decreases, closes on a decrease that zeroes the size (liquidated when the
decrease is flagged as a liquidation), and becomes Liquidated on a
Liquidate event regardless of remaining size; request bookkeeping events do
not change the state; terminal lifecycles are appended to the finished
list, after which a further event starts a new lifecycle instance. -/
def stepEvent : Option Acc × List PositionLifecycle → RawEvent →
    Option Acc × List PositionLifecycle
  | (none, done), e =>
    match e.kind with
    | .openPosition | .instantIncrease => (some (startAcc e), done)
    | _ => (none, done)
  | (some a, done), e =>
    match e.kind with
    | .openPosition | .increase | .instantIncrease => (some (applyIncrease a e), done)
    | .decrease | .instantDecrease =>
      let a' := applyDecrease a e
      if a'.size = 0 then
        (none, done ++ [finishLifecycle a'
          (if e.reqType = .liquidation then .liquidated else .closed) e])
      else (some a', done)
    | .liquidate =>
      let a' := applyDecrease a e
      (none, done ++ [finishLifecycle a' .liquidated e])
    | .requestCreated | .requestCancelled => (some a, done)

/-- Modelled from the spec: running the state machine over one position
key's sorted event group, producing one lifecycle per generation (address
reuse starts a new instance, section 4.5). -/
def foldGroup (evs : List RawEvent) : List PositionLifecycle :=
  match evs.foldl stepEvent (none, []) with
  | (some a, done) => done ++ [activeLifecycle a]
  | (none, done) => done

/-- Event order used by the reconstructor: timestamp ascending with
signature as tie-break (section 4.5). -/
def evLe (a b : RawEvent) : Bool :=
  decide (a.timestamp < b.timestamp) ||
    (decide (a.timestamp = b.timestamp) && decide (a.signature ≤ b.signature))

/-- Insertion step of the deterministic sort of an event group. -/
def insertEv (e : RawEvent) : List RawEvent → List RawEvent
  | [] => [e]
  | x :: xs => if evLe e x then e :: x :: xs else x :: insertEv e xs

/-- Modelled from the spec: deterministic sort of an event group by
timestamp with signature tie-break (section 4.5). -/
def sortEvents : List RawEvent → List RawEvent
  | [] => []
  | x :: xs => insertEv x (sortEvents xs)

/-- The distinct position keys of an event sequence, in first-occurrence
order. -/
def firstKeys (seen : List Nat) : List RawEvent → List Nat
  | [] => []
  | e :: es =>
    if e.positionKey ∈ seen then firstKeys seen es
    else e.positionKey :: firstKeys (e.positionKey :: seen) es

/-- Modelled from the spec: the LifecycleReconstructor contract — group
decoded events by position key, sort each group by timestamp with signature
tie-break, and run the lifecycle state machine over each group
(section 4.5); pure and deterministic by construction. -/
def reconstruct (evs : List RawEvent) : List PositionLifecycle :=
  (firstKeys [] evs).flatMap
    (fun k => foldGroup (sortEvents (evs.filter (fun e => e.positionKey = k))))

/-- A sample opening event. -/
def exOpen : RawEvent :=
  { positionKey := 7, timestamp := 0, signature := 0, side := .long,
    kind := .openPosition, sizeDelta := 100, price := 150, fee := 1,
    collateralDelta := 10, reqType := .market }

/-- A sample decrease that zeroes the position out. -/
def exClose : RawEvent :=
  { exOpen with
    timestamp := 1, signature := 1, kind := .instantDecrease,
    sizeDelta := 100, price := 151, fee := 1, collateralDelta := 0 }

/-- A sample liquidation that removes only part of the exposure. -/
def exLiq : RawEvent :=
  { exOpen with
    timestamp := 1, signature := 1, kind := .liquidate,
    sizeDelta := 40, price := 120, fee := 2 }

/-- A clean open-then-close history. -/
def exEventsClosed : List RawEvent := [exOpen, exClose]

/-- An open followed by a partial liquidation: terminal with nonzero size. -/
def exEventsLiq : List RawEvent := [exOpen, exLiq]

/-- Status, final size and inconsistency flag of a lifecycle. -/
def lifecycleSummary (L : PositionLifecycle) : LStatus × Int × Bool :=
  (L.status, L.size, L.inconsistent)

/-- Summaries of a lifecycle list. -/
def lifecycleSummaries (ls : List PositionLifecycle) : List (LStatus × Int × Bool) :=
  ls.map lifecycleSummary

example : lifecycleSummaries (reconstruct exEventsClosed) = [(.closed, 0, false)] := by decide
example : lifecycleSummaries (reconstruct exEventsLiq) = [(.liquidated, 60, true)] := by decide

end JupPerps

namespace JupPerps

/-- Appending one event adds its signed delta to the sum. -/
lemma sumDeltas_append (l : List RawEvent) (e : RawEvent) :
    sumDeltas (l ++ [e]) = sumDeltas l + signedDelta e := by
  simp [sumDeltas]

/-- The signed deltas of a cons. -/
lemma sumDeltas_cons (e : RawEvent) (l : List RawEvent) :
    sumDeltas (e :: l) = signedDelta e + sumDeltas l := by
  simp [sumDeltas]

/-- Size bookkeeping invariant of an in-flight lifecycle: the running size
is the sum of the signed deltas of the folded events, and the entry size is
the signed delta of the first event. -/
def accInv (a : Acc) : Prop :=
  a.size = sumDeltas a.events ∧
    ∃ e₀ rest, a.events = e₀ :: rest ∧ a.entrySize = signedDelta e₀

/-- Size bookkeeping invariant of a finished or active lifecycle. -/
def lifecycleInv (L : PositionLifecycle) : Prop :=
  L.size = sumDeltas L.events ∧
  (∃ e₀ rest, L.events = e₀ :: rest ∧ L.entrySize = signedDelta e₀) ∧
  (L.status = .closed → L.size = 0) ∧
  (L.status ≠ .active → (L.inconsistent = false ↔ L.size = 0))

/-- Invariant of the machine state: all finished lifecycles and the
in-flight accumulator satisfy their size invariants. -/
def stInv : Option Acc × List PositionLifecycle → Prop
  | (a?, done) => (∀ L ∈ done, lifecycleInv L) ∧ ∀ a, a? = some a → accInv a

/-- One state-machine transition preserves the size invariants. -/
lemma stepEvent_inv (s : Option Acc × List PositionLifecycle) (e : RawEvent)
    (h : stInv s) : stInv (stepEvent s e) := by
  obtain ⟨a?, done⟩ := s
  obtain ⟨hdone, hacc⟩ := h
  cases a? with
  | none =>
    cases hk : e.kind with
    | openPosition =>
      have hstep : stepEvent (none, done) e = (some (startAcc e), done) := by
        simp [stepEvent, hk]
      rw [hstep]
      refine ⟨hdone, fun a ha => ?_⟩
      cases Option.some.inj ha
      exact ⟨by simp [startAcc, sumDeltas, signedDelta, isIncreaseKind, hk],
        e, [], by simp [startAcc], by simp [startAcc, signedDelta, isIncreaseKind, hk]⟩
    | instantIncrease =>
      have hstep : stepEvent (none, done) e = (some (startAcc e), done) := by
        simp [stepEvent, hk]
      rw [hstep]
      refine ⟨hdone, fun a ha => ?_⟩
      cases Option.some.inj ha
      exact ⟨by simp [startAcc, sumDeltas, signedDelta, isIncreaseKind, hk],
        e, [], by simp [startAcc], by simp [startAcc, signedDelta, isIncreaseKind, hk]⟩
    | increase =>
      have hstep : stepEvent (none, done) e = (none, done) := by simp [stepEvent, hk]
      rw [hstep]
      exact ⟨hdone, fun a ha => by simp at ha⟩
    | decrease =>
      have hstep : stepEvent (none, done) e = (none, done) := by simp [stepEvent, hk]
      rw [hstep]
      exact ⟨hdone, fun a ha => by simp at ha⟩
    | instantDecrease =>
      have hstep : stepEvent (none, done) e = (none, done) := by simp [stepEvent, hk]
      rw [hstep]
      exact ⟨hdone, fun a ha => by simp at ha⟩
    | liquidate =>
      have hstep : stepEvent (none, done) e = (none, done) := by simp [stepEvent, hk]
      rw [hstep]
      exact ⟨hdone, fun a ha => by simp at ha⟩
    | requestCreated =>
      have hstep : stepEvent (none, done) e = (none, done) := by simp [stepEvent, hk]
      rw [hstep]
      exact ⟨hdone, fun a ha => by simp at ha⟩
    | requestCancelled =>
      have hstep : stepEvent (none, done) e = (none, done) := by simp [stepEvent, hk]
      rw [hstep]
      exact ⟨hdone, fun a ha => by simp at ha⟩
  | some a =>
    obtain ⟨hsize, e₀, rest, hevs, hent⟩ := hacc a rfl
    have hinc : (e.kind = .openPosition ∨ e.kind = .increase ∨
        e.kind = .instantIncrease) → accInv (applyIncrease a e) := by
      intro hk
      have hde : signedDelta e = e.sizeDelta := by
        rcases hk with hk | hk | hk <;> simp [signedDelta, isIncreaseKind, hk]
      refine ⟨?_, e₀, rest ++ [e], ?_, hent⟩
      · simp [applyIncrease, sumDeltas_append, hde, hsize]
      · simp [applyIncrease, hevs]
    have hdecInv : (e.kind = .decrease ∨ e.kind = .instantDecrease ∨
        e.kind = .liquidate) → accInv (applyDecrease a e) := by
      intro hk
      have hde : signedDelta e = -e.sizeDelta := by
        rcases hk with hk | hk | hk <;>
          simp [signedDelta, isIncreaseKind, isDecreaseKind, hk]
      refine ⟨?_, e₀, rest ++ [e], ?_, hent⟩
      · simp [applyDecrease, sumDeltas_append, hde, hsize]
        omega
      · simp [applyDecrease, hevs]
    cases hk : e.kind with
    | openPosition =>
      have hstep : stepEvent (some a, done) e = (some (applyIncrease a e), done) := by
        simp [stepEvent, hk]
      rw [hstep]
      refine ⟨hdone, fun b hb => ?_⟩
      cases Option.some.inj hb
      exact hinc (Or.inl hk)
    | increase =>
      have hstep : stepEvent (some a, done) e = (some (applyIncrease a e), done) := by
        simp [stepEvent, hk]
      rw [hstep]
      refine ⟨hdone, fun b hb => ?_⟩
      cases Option.some.inj hb
      exact hinc (Or.inr (Or.inl hk))
    | instantIncrease =>
      have hstep : stepEvent (some a, done) e = (some (applyIncrease a e), done) := by
        simp [stepEvent, hk]
      rw [hstep]
      refine ⟨hdone, fun b hb => ?_⟩
      cases Option.some.inj hb
      exact hinc (Or.inr (Or.inr hk))
    | decrease =>
      have hai := hdecInv (Or.inl hk)
      by_cases hz : (applyDecrease a e).size = 0
      · have hstep : stepEvent (some a, done) e
            = (none, done ++ [finishLifecycle (applyDecrease a e)
                (if e.reqType = .liquidation then .liquidated else .closed) e]) := by
          simp [stepEvent, hk, hz]
        rw [hstep]
        refine ⟨?_, fun b hb => by simp at hb⟩
        intro L hL
        rw [List.mem_append] at hL
        rcases hL with hL | hL
        · exact hdone L hL
        · rw [List.mem_singleton] at hL
          subst hL
          obtain ⟨hs, e₁, r₁, he₁, hent₁⟩ := hai
          refine ⟨by simpa [finishLifecycle] using hs,
            ⟨e₁, r₁, by simpa [finishLifecycle] using he₁,
              by simpa [finishLifecycle] using hent₁⟩, ?_, ?_⟩
          · intro _
            simpa [finishLifecycle] using hz
          · intro _
            simp [finishLifecycle, hz]
      · have hstep : stepEvent (some a, done) e = (some (applyDecrease a e), done) := by
          simp [stepEvent, hk, hz]
        rw [hstep]
        refine ⟨hdone, fun b hb => ?_⟩
        cases Option.some.inj hb
        exact hai
    | instantDecrease =>
      have hai := hdecInv (Or.inr (Or.inl hk))
      by_cases hz : (applyDecrease a e).size = 0
      · have hstep : stepEvent (some a, done) e
            = (none, done ++ [finishLifecycle (applyDecrease a e)
                (if e.reqType = .liquidation then .liquidated else .closed) e]) := by
          simp [stepEvent, hk, hz]
        rw [hstep]
        refine ⟨?_, fun b hb => by simp at hb⟩
        intro L hL
        rw [List.mem_append] at hL
        rcases hL with hL | hL
        · exact hdone L hL
        · rw [List.mem_singleton] at hL
          subst hL
          obtain ⟨hs, e₁, r₁, he₁, hent₁⟩ := hai
          refine ⟨by simpa [finishLifecycle] using hs,
            ⟨e₁, r₁, by simpa [finishLifecycle] using he₁,
              by simpa [finishLifecycle] using hent₁⟩, ?_, ?_⟩
          · intro _
            simpa [finishLifecycle] using hz
          · intro _
            simp [finishLifecycle, hz]
      · have hstep : stepEvent (some a, done) e = (some (applyDecrease a e), done) := by
          simp [stepEvent, hk, hz]
        rw [hstep]
        refine ⟨hdone, fun b hb => ?_⟩
        cases Option.some.inj hb
        exact hai
    | liquidate =>
      have hai := hdecInv (Or.inr (Or.inr hk))
      have hstep : stepEvent (some a, done) e
          = (none, done ++ [finishLifecycle (applyDecrease a e) .liquidated e]) := by
        simp [stepEvent, hk]
      rw [hstep]
      refine ⟨?_, fun b hb => by simp at hb⟩
      intro L hL
      rw [List.mem_append] at hL
      rcases hL with hL | hL
      · exact hdone L hL
      · rw [List.mem_singleton] at hL
        subst hL
        obtain ⟨hs, e₁, r₁, he₁, hent₁⟩ := hai
        refine ⟨by simpa [finishLifecycle] using hs,
          ⟨e₁, r₁, by simpa [finishLifecycle] using he₁,
            by simpa [finishLifecycle] using hent₁⟩, ?_, ?_⟩
        · intro hcl
          simp [finishLifecycle] at hcl
        · intro _
          simp [finishLifecycle]
    | requestCreated =>
      have hstep : stepEvent (some a, done) e = (some a, done) := by
        simp [stepEvent, hk]
      rw [hstep]
      refine ⟨hdone, fun b hb => ?_⟩
      cases Option.some.inj hb
      exact ⟨hsize, e₀, rest, hevs, hent⟩
    | requestCancelled =>
      have hstep : stepEvent (some a, done) e = (some a, done) := by
        simp [stepEvent, hk]
      rw [hstep]
      refine ⟨hdone, fun b hb => ?_⟩
      cases Option.some.inj hb
      exact ⟨hsize, e₀, rest, hevs, hent⟩

/-- Folding any event list preserves the machine invariant. -/
lemma foldl_stepEvent_inv (evs : List RawEvent) :
    ∀ s, stInv s → stInv (evs.foldl stepEvent s) := by
  induction evs with
  | nil => intro s h; simpa using h
  | cons e es ih =>
    intro s h
    simpa using ih (stepEvent s e) (stepEvent_inv s e h)

/-- Every lifecycle produced from one sorted event group satisfies the
size invariant. -/
lemma foldGroup_lifecycleInv (evs : List RawEvent) :
    ∀ L ∈ foldGroup evs, lifecycleInv L := by
  have h := foldl_stepEvent_inv evs (none, []) ⟨by simp, by simp⟩
  intro L hL
  unfold foldGroup at hL
  rcases hfold : evs.foldl stepEvent (none, []) with ⟨a?, done⟩
  rw [hfold] at h hL
  obtain ⟨hdone, hacc⟩ := h
  cases a? with
  | none => exact hdone L hL
  | some a =>
    simp at hL
    rcases hL with hL | hL
    · exact hdone L hL
    · subst hL
      obtain ⟨hs, e₀, r₀, he₀, hent₀⟩ := hacc a rfl
      refine ⟨by simpa [activeLifecycle] using hs,
        ⟨e₀, r₀, by simpa [activeLifecycle] using he₀,
          by simpa [activeLifecycle] using hent₀⟩, ?_, ?_⟩
      · intro hcl
        simp [activeLifecycle] at hcl
      · intro hna
        simp [activeLifecycle] at hna

/-- Every lifecycle produced by the reconstructor satisfies the size
invariant. -/
lemma reconstruct_lifecycleInv (evs : List RawEvent) (L : PositionLifecycle)
    (h : L ∈ reconstruct evs) : lifecycleInv L := by
  unfold reconstruct at h
  rw [List.mem_flatMap] at h
  obtain ⟨k, _, hL⟩ := h
  exact foldGroup_lifecycleInv _ L hL

/-- C4: the reconstructor is a pure, deterministic function of its input —
two runs on the same RawEvent sequence yield identical PositionLifecycle
output (no hidden state and no I/O appear in the model, which is a total
Lean function). -/
theorem c4_reconstruct_deterministic (evs1 evs2 : List RawEvent)
    (h : evs1 = evs2) : reconstruct evs1 = reconstruct evs2 := by
  rw [h]

/-- Witness for C4: two runs on the sample history coincide. -/
theorem c4_witness : reconstruct exEventsClosed = reconstruct exEventsClosed :=
  c4_reconstruct_deterministic exEventsClosed exEventsClosed rfl

/-- C5 counterexample: an Open of size 100 followed by a Liquidate whose
size delta is only 40 produces a terminal (liquidated) lifecycle whose
final size is 60, not zero — the claim that size reaches exactly zero at
every terminal event fails on the model (the spec itself allows this and
flags it InconsistentLifecycle, as the true final component shows). -/
theorem c5_counterexample :
    lifecycleSummaries (reconstruct exEventsLiq)
      = [(LStatus.liquidated, (60 : Int), true)] := by
  decide

/-- C5 (amended): for every PositionLifecycle produced by the
reconstructor, the running size equals the size at entry plus the sum of
the signed size deltas of the subsequent folded events; a lifecycle closed
by a decrease reaches size exactly zero, and a terminal lifecycle is
consistent (its InconsistentLifecycle flag is clear) exactly when its final
size is zero — a liquidation may leave nonzero size, which is flagged
rather than forced to zero. -/
theorem c5_size_invariant (evs : List RawEvent) (L : PositionLifecycle)
    (h : L ∈ reconstruct evs) :
    (∃ e₀ rest, L.events = e₀ :: rest ∧ L.entrySize = signedDelta e₀ ∧
      L.size = L.entrySize + sumDeltas rest) ∧
    (L.status = .closed → L.size = 0) ∧
    (L.status ≠ .active → (L.inconsistent = false ↔ L.size = 0)) := by
  obtain ⟨hsize, ⟨e₀, rest, hevs, hent⟩, hcl, hflag⟩ := reconstruct_lifecycleInv evs L h
  refine ⟨⟨e₀, rest, hevs, hent, ?_⟩, hcl, hflag⟩
  rw [hsize, hevs, sumDeltas_cons, hent]

/-- Witness for C5 at the concrete open-then-close history. -/
theorem c5_witness :
    (∃ e₀ rest, ((reconstruct exEventsClosed).headI).events = e₀ :: rest ∧
      ((reconstruct exEventsClosed).headI).entrySize = signedDelta e₀ ∧
      ((reconstruct exEventsClosed).headI).size
        = ((reconstruct exEventsClosed).headI).entrySize + sumDeltas rest) ∧
    (((reconstruct exEventsClosed).headI).status = .closed →
      ((reconstruct exEventsClosed).headI).size = 0) ∧
    (((reconstruct exEventsClosed).headI).status ≠ .active →
      (((reconstruct exEventsClosed).headI).inconsistent = false ↔
        ((reconstruct exEventsClosed).headI).size = 0)) :=
  c5_size_invariant exEventsClosed ((reconstruct exEventsClosed).headI) (by decide)

end JupPerps

namespace JupPerps

/-- Modelled from the spec: a transaction identifier together with the
block time that orders it (section 3, Signature: ordered only via its
enclosing block, not by value). -/
structure SigInfo where
  signature : Nat
  blockTime : Nat
deriving DecidableEq, Repr, Inhabited

/-- Modelled from the spec: the external RPC provider and decoding oracle,
as a pure data source — per-address transaction history (newest first, as
pagination sees it) and per-signature decoded events (sections 4.3, 4.4
and 6). -/
structure ChainData where
  txsOf : Nat → List SigInfo
  eventsOf : Nat → List RawEvent

/-- Modelled from the spec: the from-date bound of signature retrieval —
inclusive, an item exactly at the boundary is kept (section 4.3). -/
def inFromRange (f : Option Nat) (x : SigInfo) : Bool :=
  match f with
  | none => true
  | some fd => decide (fd ≤ x.blockTime)

/-- Modelled from the spec: the to-date filter of signature retrieval —
items newer than the bound are excluded from the merged sequence
(section 4.3; the boundary convention excludes an item exactly at the
bound). -/
def inToRange (t : Option Nat) (x : SigInfo) : Bool :=
  match t with
  | none => true
  | some td => decide (x.blockTime < td)

/-- Deduplication by signature identity, keeping the first occurrence;
seen accumulates the signatures already emitted. -/
def dedupBySigAux (seen : List Nat) : List SigInfo → List SigInfo
  | [] => []
  | x :: xs =>
    if x.signature ∈ seen then dedupBySigAux seen xs
    else x :: dedupBySigAux (x.signature :: seen) xs

/-- Modelled from the spec: deduplication by signature identity — the same
transaction can touch multiple discovered addresses (section 4.3). -/
def dedupBySig (l : List SigInfo) : List SigInfo :=
  dedupBySigAux [] l

/-- Insertion step of the block-time sort. -/
def insertByTime (x : SigInfo) : List SigInfo → List SigInfo
  | [] => [x]
  | y :: ys => if x.blockTime ≤ y.blockTime then x :: y :: ys else y :: insertByTime x ys

/-- Modelled from the spec: ordering the merged sequence by block time
ascending (section 4.3). -/
def sortByTime : List SigInfo → List SigInfo
  | [] => []
  | x :: xs => insertByTime x (sortByTime xs)

/-- Block-time order on signature entries. -/
def timeLe (a b : SigInfo) : Prop := a.blockTime ≤ b.blockTime

/-- Modelled from the spec: the SignatureRetriever contract — per-address
histories restricted by the inclusive from bound, merged across addresses,
filtered by the to bound, deduplicated by signature identity, and ordered
by block time ascending (section 4.3). -/
def retrieve (addrs : List Nat) (chain : ChainData) (f t : Option Nat) : List SigInfo :=
  let merged := addrs.flatMap (fun a => (chain.txsOf a).filter (inFromRange f))
  let filtered := merged.filter (inToRange t)
  sortByTime (dedupBySig filtered)

/-- Inserting keeps the elements of a list (as a permutation). -/
lemma insertByTime_perm (x : SigInfo) (l : List SigInfo) :
    (insertByTime x l).Perm (x :: l) := by
  induction l with
  | nil => simp [insertByTime]
  | cons y ys ih =>
    by_cases hle : x.blockTime ≤ y.blockTime
    · simp [insertByTime, hle]
    · simp only [insertByTime, if_neg hle]
      exact (ih.cons y).trans (List.Perm.swap x y ys)

/-- Sorting keeps the elements of a list (as a permutation). -/
lemma sortByTime_perm (l : List SigInfo) : (sortByTime l).Perm l := by
  induction l with
  | nil => simp [sortByTime]
  | cons x xs ih => exact (insertByTime_perm x (sortByTime xs)).trans (ih.cons x)

/-- Inserting into a block-time-sorted list keeps it sorted. -/
lemma insertByTime_sorted (x : SigInfo) (l : List SigInfo)
    (h : l.Sorted timeLe) : (insertByTime x l).Sorted timeLe := by
  induction l with
  | nil => simp [insertByTime, List.sorted_singleton]
  | cons y ys ih =>
    rw [List.sorted_cons] at h
    obtain ⟨hy, hys⟩ := h
    by_cases hle : x.blockTime ≤ y.blockTime
    · rw [insertByTime, if_pos hle, List.sorted_cons]
      refine ⟨fun b hb => ?_, ?_⟩
      · rcases List.mem_cons.mp hb with rfl | hb
        · exact hle
        · exact Nat.le_trans hle (hy b hb)
      · rw [List.sorted_cons]
        exact ⟨hy, hys⟩
    · rw [insertByTime, if_neg hle, List.sorted_cons]
      refine ⟨fun b hb => ?_, ih hys⟩
      have hb' : b ∈ x :: ys := (insertByTime_perm x ys).mem_iff.mp hb
      rcases List.mem_cons.mp hb' with rfl | hb2
      · exact Nat.le_of_not_le hle
      · exact hy b hb2

/-- The block-time sort produces a sorted list. -/
lemma sortByTime_sorted (l : List SigInfo) : (sortByTime l).Sorted timeLe := by
  induction l with
  | nil => simp [sortByTime]
  | cons x xs ih => exact insertByTime_sorted x (sortByTime xs) ih

/-- A signature emitted by the deduplication pass was not already seen. -/
lemma dedupBySigAux_not_seen {s : Nat} {seen : List Nat} {l : List SigInfo}
    (h : s ∈ (dedupBySigAux seen l).map SigInfo.signature) : s ∉ seen := by
  induction l generalizing seen with
  | nil => simp [dedupBySigAux] at h
  | cons x xs ih =>
    by_cases hx : x.signature ∈ seen
    · rw [dedupBySigAux, if_pos hx] at h
      exact ih h
    · rw [dedupBySigAux, if_neg hx] at h
      simp only [List.map_cons, List.mem_cons] at h
      rcases h with h | h
      · subst h
        exact hx
      · intro hs
        exact ih h (List.mem_cons_of_mem _ hs)

/-- The deduplication pass emits each signature at most once. -/
lemma dedupBySigAux_nodup (seen : List Nat) (l : List SigInfo) :
    ((dedupBySigAux seen l).map SigInfo.signature).Nodup := by
  induction l generalizing seen with
  | nil => simp [dedupBySigAux]
  | cons x xs ih =>
    by_cases hx : x.signature ∈ seen
    · rw [dedupBySigAux, if_pos hx]
      exact ih seen
    · rw [dedupBySigAux, if_neg hx]
      simp only [List.map_cons, List.nodup_cons]
      refine ⟨fun hmem => ?_, ih _⟩
      exact dedupBySigAux_not_seen hmem (List.mem_cons_self _ _)

/-- Every unseen signature present in the input survives deduplication. -/
lemma dedupBySigAux_complete {s : Nat} {seen : List Nat} {l : List SigInfo}
    (hmem : s ∈ l.map SigInfo.signature) (hs : s ∉ seen) :
    s ∈ (dedupBySigAux seen l).map SigInfo.signature := by
  induction l generalizing seen with
  | nil => simp at hmem
  | cons x xs ih =>
    simp only [List.map_cons, List.mem_cons] at hmem
    by_cases hx : x.signature ∈ seen
    · rw [dedupBySigAux, if_pos hx]
      rcases hmem with hmem | hmem
      · subst hmem
        exact absurd hx hs
      · exact ih hmem hs
    · rw [dedupBySigAux, if_neg hx]
      simp only [List.map_cons, List.mem_cons]
      rcases hmem with hmem | hmem
      · exact Or.inl hmem
      · by_cases hsx : s = x.signature
        · exact Or.inl hsx
        · refine Or.inr (ih hmem ?_)
          simp only [List.mem_cons]
          rintro (h | h)
          · exact hsx h
          · exact hs h

/-- C6: for every set of addresses — including two addresses with
overlapping transaction sets — the merged SignatureRetriever output
contains each signature at most once (no duplicates survive), is a single
sequence ordered by block time ascending, and contains every signature
that any queried address holds within the date bounds. -/
theorem c6_merge_dedup_sorted :
    (∀ (addrs : List Nat) (chain : ChainData) (f t : Option Nat),
      ((retrieve addrs chain f t).map SigInfo.signature).Nodup ∧
      (retrieve addrs chain f t).Sorted timeLe) ∧
    (∀ (addrs : List Nat) (chain : ChainData) (f t : Option Nat) (a : Nat) (x : SigInfo),
      a ∈ addrs → x ∈ chain.txsOf a → inFromRange f x = true → inToRange t x = true →
      x.signature ∈ (retrieve addrs chain f t).map SigInfo.signature) := by
  constructor
  · intro addrs chain f t
    constructor
    · have hperm := (sortByTime_perm (dedupBySig
        ((addrs.flatMap (fun a => (chain.txsOf a).filter (inFromRange f))).filter
          (inToRange t)))).map SigInfo.signature
      exact (hperm.nodup_iff).mpr (dedupBySigAux_nodup [] _)
    · exact sortByTime_sorted _
  · intro addrs chain f t a x ha hx hf ht
    have hmerged : x ∈ (addrs.flatMap (fun b => (chain.txsOf b).filter (inFromRange f))) := by
      rw [List.mem_flatMap]
      exact ⟨a, ha, List.mem_filter.mpr ⟨hx, hf⟩⟩
    have hfiltered : x ∈ (addrs.flatMap
        (fun b => (chain.txsOf b).filter (inFromRange f))).filter (inToRange t) :=
      List.mem_filter.mpr ⟨hmerged, ht⟩
    have hsig : x.signature ∈ ((addrs.flatMap
        (fun b => (chain.txsOf b).filter (inFromRange f))).filter
          (inToRange t)).map SigInfo.signature :=
      List.mem_map_of_mem _ hfiltered
    have hded := dedupBySigAux_complete hsig (List.not_mem_nil x.signature)
    have hperm := (sortByTime_perm (dedupBySig ((addrs.flatMap
        (fun b => (chain.txsOf b).filter (inFromRange f))).filter
          (inToRange t)))).map SigInfo.signature
    exact (hperm.mem_iff).mpr hded

/-- A concrete data source where two addresses share a transaction. -/
def exChain : ChainData :=
  { txsOf := fun a =>
      if a = 1 then [⟨10, 100⟩, ⟨11, 90⟩]
      else if a = 2 then [⟨10, 100⟩, ⟨12, 80⟩]
      else []
  , eventsOf := fun _ => [] }

example : (retrieve [1, 2] exChain none none).map SigInfo.signature = [12, 11, 10] := by decide

/-- Witness for C6 at a concrete pair of addresses whose transaction sets
overlap on signature 10. -/
theorem c6_witness :
    ((retrieve [1, 2] exChain none none).map SigInfo.signature).Nodup ∧
    (retrieve [1, 2] exChain none none).Sorted timeLe ∧
    SigInfo.signature ⟨10, 100⟩ ∈ (retrieve [1, 2] exChain none none).map SigInfo.signature :=
  ⟨(c6_merge_dedup_sorted.1 [1, 2] exChain none none).1,
    (c6_merge_dedup_sorted.1 [1, 2] exChain none none).2,
    c6_merge_dedup_sorted.2 [1, 2] exChain none none 1 ⟨10, 100⟩
      (by decide) (by decide) (by decide) (by decide)⟩

end JupPerps

namespace JupPerps

/-- Modelled from the spec: the final output record — wallet address and
ordered sequence of position lifecycles (section 3, TradeReport; the
generation timestamp and formatting are outside the pure model). -/
structure TradeReport where
  walletAddress : Nat
  positions : List PositionLifecycle
deriving DecidableEq, Repr

/-- Modelled from the spec: the TransactionDecoder contract — each
retrieved signature contributes the zero or more events the decoding
oracle extracts from its transaction (section 4.4). -/
def decode (chain : ChainData) (sigs : List SigInfo) : List RawEvent :=
  sigs.flatMap (fun s => chain.eventsOf s.signature)

/-- Modelled from the spec: the ReportAssembler contract — a pure
formatting step with stable ordering and no business logic (section 4.6). -/
def assemble (wallet : Nat) (ls : List PositionLifecycle) : TradeReport :=
  { walletAddress := wallet, positions := ls }

/-- Modelled from the spec: the pipeline of section 2 from the discovered
address set onward — retrieval, decoding, reconstruction, assembly.  The
result is wrapped in Except because section 7 reserves a fatal-error
channel for the run; per Scenario C and the integration guide (consistent
JSON structure on empty results), an empty discovery set flows through the
stages and produces an empty report rather than using that channel. -/
def runPipeline (wallet : Nat) (discovered : List Nat) (chain : ChainData)
    (f t : Option Nat) : Except String TradeReport :=
  let sigs := retrieve discovered chain f t
  let evs := decode chain sigs
  .ok (assemble wallet (reconstruct evs))

/-- C3: a wallet whose address discovery yields zero candidate addresses
produces a TradeReport with an empty positions array, and the run does not
raise an error. -/
theorem c3_empty_discovery_empty_report (wallet : Nat) (chain : ChainData)
    (f t : Option Nat) :
    runPipeline wallet [] chain f t = .ok { walletAddress := wallet, positions := [] } :=
  rfl

/-- Modelled from the spec: the outcome one attempt of a request can have
at the provider — success, a rate-limit signal (retriable), or a
non-retriable failure (section 4.1 and section 6). -/
inductive FetchOutcome (α : Type) where
  | success (v : α)
  | rateLimited
  | fatal (msg : String)
deriving DecidableEq, Repr

/-- Modelled from the spec: the per-item result of the fetcher — success
or a typed failure, each carrying the total backoff delay accumulated
before resolution (sections 4.1 and 7, Scenario D). -/
inductive FetchResult (α : Type) where
  | ok (v : α) (totalDelay : Nat)
  | failedRateLimited (totalDelay : Nat)
  | failedFatal (msg : String) (totalDelay : Nat)
deriving DecidableEq, Repr

/-- Modelled from the spec: the retry policy object — max attempts, base
delay and multiplicative backoff factor (section 4.1 and section 9). -/
structure RetryPolicy where
  maxAttempts : Nat
  baseDelay : Nat
  factor : Nat
deriving DecidableEq, Repr

/-- Backoff delay slept after a failed attempt (exponential in the attempt
number). -/
def backoffDelay (p : RetryPolicy) (attempt : Nat) : Nat :=
  p.baseDelay * p.factor ^ (attempt - 1)

/-- Modelled from the spec: the retry loop of the RateLimitedFetcher — a
rate-limit signal retries the same request with exponential backoff while
attempts remain, a non-retriable failure fails fast, and exhausting the
attempt budget surfaces a typed rate-limit failure (section 4.1).  The
behaviour of one request across attempts is supplied as a pure oracle from
attempt number to outcome. -/
def retryGo (p : RetryPolicy) (oracle : Nat → FetchOutcome α) :
    Nat → Nat → Nat → FetchResult α
  | 0, _, delay => .failedRateLimited delay
  | rem + 1, attempt, delay =>
    match oracle attempt with
    | .success v => .ok v delay
    | .fatal m => .failedFatal m delay
    | .rateLimited => retryGo p oracle rem (attempt + 1) (delay + backoffDelay p attempt)

/-- Modelled from the spec: executing one request under the retry policy,
starting at attempt 1 with no accumulated delay. -/
def retryFetch (p : RetryPolicy) (oracle : Nat → FetchOutcome α) : FetchResult α :=
  retryGo p oracle p.maxAttempts 1 0

/-- Modelled from the spec: executing a batch — every item is run under
the same policy, independently of the others (section 4.1: a per-item
failure never aborts the batch). -/
def executeBatch (p : RetryPolicy) (batch : List (Nat → FetchOutcome α)) :
    List (FetchResult α) :=
  batch.map (retryFetch p)

/-- C7: under the default cap of 3 attempts, a request rate-limited on
attempts 1 and 2 that succeeds on attempt 3 yields a successful item whose
total latency is the two backoff delays (no data loss); a request
rate-limited on every attempt surfaces a typed rate-limit failure after
three backoff delays; and a batch result is the independent per-item
results — the item before and after any given request are unaffected by
it, so one exhausted item never aborts the rest of the batch. -/
theorem c7_retry_backoff_isolation :
    (∀ (p : RetryPolicy) (oracle : Nat → FetchOutcome Nat) (v : Nat),
      p.maxAttempts = 3 →
      oracle 1 = .rateLimited → oracle 2 = .rateLimited → oracle 3 = .success v →
      retryFetch p oracle = .ok v (p.baseDelay + p.baseDelay * p.factor)) ∧
    (∀ (p : RetryPolicy) (oracle : Nat → FetchOutcome Nat),
      p.maxAttempts = 3 →
      (∀ i, oracle i = .rateLimited) →
      retryFetch p oracle = .failedRateLimited
        (p.baseDelay + p.baseDelay * p.factor + p.baseDelay * p.factor ^ 2)) ∧
    (∀ (p : RetryPolicy) (pre : List (Nat → FetchOutcome Nat))
      (o : Nat → FetchOutcome Nat) (post : List (Nat → FetchOutcome Nat)),
      executeBatch p (pre ++ o :: post)
        = executeBatch p pre ++ retryFetch p o :: executeBatch p post) := by
  refine ⟨?_, ?_, ?_⟩
  · intro p oracle v hmax h1 h2 h3
    rw [retryFetch, hmax]
    show retryGo p oracle (2 + 1) 1 0 = _
    rw [retryGo, h1]
    show retryGo p oracle (1 + 1) 2 (0 + backoffDelay p 1) = _
    rw [retryGo, h2]
    show retryGo p oracle (0 + 1) 3
      (0 + backoffDelay p 1 + backoffDelay p 2) = _
    rw [retryGo, h3]
    simp [backoffDelay]
  · intro p oracle hmax hrl
    rw [retryFetch, hmax]
    show retryGo p oracle (2 + 1) 1 0 = _
    rw [retryGo, hrl 1]
    show retryGo p oracle (1 + 1) 2 (0 + backoffDelay p 1) = _
    rw [retryGo, hrl 2]
    show retryGo p oracle (0 + 1) 3
      (0 + backoffDelay p 1 + backoffDelay p 2) = _
    rw [retryGo, hrl 3]
    show retryGo p oracle 0 4
      (0 + backoffDelay p 1 + backoffDelay p 2 + backoffDelay p 3) = _
    rw [retryGo]
    simp [backoffDelay]
  · intro p pre o post
    simp [executeBatch]

/-- A concrete request oracle: rate-limited on the first two attempts,
successful from the third on. -/
def exOracle : Nat → FetchOutcome Nat :=
  fun i => if i ≤ 2 then .rateLimited else .success 42

/-- A concrete request oracle that is rate-limited on every attempt. -/
def exOracleRL : Nat → FetchOutcome Nat :=
  fun _ => .rateLimited

/-- The default policy observed in the repository notes: 3 retries with
exponential backoff. -/
def exPolicy : RetryPolicy := { maxAttempts := 3, baseDelay := 100, factor := 2 }

/-- Witness for C7: the fail-fail-succeed oracle yields the value with two
backoff delays, and the always-rate-limited oracle yields the typed
failure after three. -/
theorem c7_witness :
    retryFetch exPolicy exOracle = .ok 42 (100 + 100 * 2) ∧
    retryFetch exPolicy exOracleRL
      = .failedRateLimited (100 + 100 * 2 + 100 * 2 ^ 2) :=
  ⟨c7_retry_backoff_isolation.1 exPolicy exOracle 42 rfl rfl rfl rfl,
    c7_retry_backoff_isolation.2.1 exPolicy exOracleRL rfl (fun _ => rfl)⟩

end JupPerps
